import Mathlib

/-
Verification development for the NCO-2015 occupation extractor
(scripts/nco_extractor.py).  Strings are modelled as `List Char`;
Python string methods and the specific regular expressions used by the
extractor are embedded as executable Lean functions.
-/

/-- Characters treated as whitespace by Python `str.strip`, `str.split`,
`str.isspace` and by the regex class `\s` (Unicode whitespace table). -/
def pyIsSpace (c : Char) : Bool :=
  (9 ≤ c.toNat && c.toNat ≤ 13) || (28 ≤ c.toNat && c.toNat ≤ 31) ||
  c.toNat = 32 || c.toNat = 133 || c.toNat = 160 || c.toNat = 5760 ||
  (8192 ≤ c.toNat && c.toNat ≤ 8202) || c.toNat = 8232 || c.toNat = 8233 ||
  c.toNat = 8239 || c.toNat = 8287 || c.toNat = 12288

/-- ASCII decimal digit (the digits accepted by the codes in this document family). -/
def pyIsDigit (c : Char) : Bool :=
  48 ≤ c.toNat && c.toNat ≤ 57

/-- ASCII upper-case letter. -/
def isUpperAlpha (c : Char) : Bool :=
  65 ≤ c.toNat && c.toNat ≤ 90

/-- ASCII lower-case letter. -/
def isLowerAlpha (c : Char) : Bool :=
  97 ≤ c.toNat && c.toNat ≤ 122

/-- Python `str.lower` on one character (ASCII case folding). -/
def pyLower (c : Char) : Char :=
  if isUpperAlpha c then Char.ofNat (c.toNat + 32) else c

/-- Regex word character `\w` (ASCII): letter, digit or underscore.
Used for the word-boundary assertion `\b`. -/
def isWordChar (c : Char) : Bool :=
  pyIsDigit c || isUpperAlpha c || isLowerAlpha c || c = '_'

/-- Python `str.lower` on a string. -/
def pyLowerStr (l : List Char) : List Char :=
  l.map pyLower

/-- Python `str.strip()`: drop whitespace from both ends. -/
def pyStrip (l : List Char) : List Char :=
  List.rdropWhile pyIsSpace (l.dropWhile pyIsSpace)

/-- Python `str.strip(chars)`: drop the given characters from both ends. -/
def pyStripChars (cs : List Char) (l : List Char) : List Char :=
  List.rdropWhile (fun c => cs.contains c) (l.dropWhile (fun c => cs.contains c))

/-- Helper for `pySplit`: `acc` is the current (reversed) token. -/
def pySplitAux : List Char → List Char → List (List Char)
  | [], acc => if acc.isEmpty then [] else [acc.reverse]
  | c :: rest, acc =>
    if pyIsSpace c then
      if acc.isEmpty then pySplitAux rest []
      else acc.reverse :: pySplitAux rest []
    else pySplitAux rest (c :: acc)

/-- Python `str.split()` with no argument: maximal runs of non-whitespace. -/
def pySplit (l : List Char) : List (List Char) :=
  pySplitAux l []

/-- First whitespace-delimited token of a line, `""` when there is none
(`line.split()[0] if line.split() else ""`). -/
def firstWord (l : List Char) : List Char :=
  (pySplit l).headD []

/-- Python `' '.join(parts)`. -/
def joinSp (ls : List (List Char)) : List Char :=
  List.intercalate [' '] ls

/-- `re.search`-style scan: does the matcher accept at some position
(positions `0 .. length`, left to right)? -/
def searchAny (p : List Char → Bool) : List Char → Bool
  | [] => p []
  | c :: rest => p (c :: rest) || searchAny p rest

/-- Python substring test `pat in s`. -/
def strContains (s pat : List Char) : Bool :=
  searchAny (fun t => pat.isPrefixOf t) s

/-- Match a literal string at the head, returning the remainder. -/
def expectStr (pat s : List Char) : Option (List Char) :=
  if pat.isPrefixOf s then some (s.drop pat.length) else none

/-- Match a literal lowercase string case-insensitively at the head. -/
def expectStrCI (pat s : List Char) : Option (List Char) :=
  if (s.take pat.length).map pyLower = pat then some (s.drop pat.length) else none

/-- Match one character satisfying `q` at the head. -/
def expectCh (q : Char → Bool) (s : List Char) : Option (List Char) :=
  match s with
  | c :: r => if q c then some r else none
  | [] => none

/-- Match a maximal nonempty run of characters satisfying `q`
(regex `X+` for a character class, followed by a class-disjoint atom). -/
def run1 (q : Char → Bool) (s : List Char) : Option (List Char) :=
  match s with
  | c :: _ => if q c then some (s.dropWhile q) else none
  | [] => none

/-- Match exactly `n` characters satisfying `q` (regex `X{n}`). -/
def expectN (q : Char → Bool) (n : Nat) (s : List Char) : Option (List Char) :=
  if n ≤ s.length ∧ (s.take n).all q then some (s.drop n) else none

/-- Matcher for `\d{4}\.\d{4}` at the current position. -/
def metaSubcode (t : List Char) : Bool :=
  (((expectN pyIsDigit 4 t).bind (expectCh (fun c => c = '.'))).bind
    (expectN pyIsDigit 4)).isSome

/-- The sector prefixes of the QP-code pattern `(agr|con|ite|css|ssc|ffs)`. -/
def qpSectors : List (List Char) :=
  ["agr".data, "con".data, "ite".data, "css".data, "ssc".data, "ffs".data]

/-- Matcher for `(agr|con|ite|css|ssc|ffs)/q\d+` at the current position
(applied to the lower-cased line). -/
def matchQp (t : List Char) : Bool :=
  (((if qpSectors.any (fun p => p.isPrefixOf t) then some (t.drop 3) else none).bind
    (expectCh (fun c => c = '/'))).bind
    (expectCh (fun c => c = 'q'))).bind (run1 pyIsDigit) |>.isSome

/-- Matcher for `isco[-\s]*08` at the current position (lower-cased line). -/
def matchIsco (t : List Char) : Bool :=
  ((expectStr "isco".data t).map
    (fun r => r.dropWhile (fun c => c = '-' || pyIsSpace c))).bind
    (expectStr "08".data) |>.isSome

/-- Matcher for `unit group:?\s*\d{4}` at the current position (lower-cased line). -/
def matchUnitGroup (t : List Char) : Bool :=
  ((expectStr "unit group".data t).bind (fun r =>
    let r2 := match expectCh (fun c => c = ':') r with
      | some x => x
      | none => r
    expectN pyIsDigit 4 (r2.dropWhile pyIsSpace))).isSome

/-- Matcher for `sub-group:?\s*\d{3}` at the current position (lower-cased line). -/
def matchSubGroup (t : List Char) : Bool :=
  ((expectStr "sub-group".data t).bind (fun r =>
    let r2 := match expectCh (fun c => c = ':') r with
      | some x => x
      | none => r
    expectN pyIsDigit 3 (r2.dropWhile pyIsSpace))).isSome

/-- Structural-header keywords (`HEADER_KEYWORDS`). -/
def HEADER_KEYWORDS : List (List Char) :=
  ["division".data, "sub-division".data, "subdivision".data, "family".data,
   "sub-family".data, "volume".data, "part".data, "section".data,
   "chapter".data, "index".data, "contents".data, "classification".data,
   "national".data, "occupations".data, "annexure".data, "group".data,
   "preface".data, "foreword".data, "introduction".data]

/-- Metadata keywords (`METADATA_KEYWORDS`). -/
def METADATA_KEYWORDS : List (List Char) :=
  ["qualification pack".data, "qp-nos".data, "qp nos".data, "nsqf".data,
   "nos code".data, "performance criteria".data,
   "knowledge and understanding".data, "sector".data, "occupation map".data,
   "nveqf".data, "also known as".data]

/-- The denylist of calendar years in `is_valid_nco_code`. -/
def YEAR_DENYLIST : List (List Char) :=
  ["2015".data, "2016".data, "2017".data, "2018".data, "2019".data,
   "2020".data, "2021".data]

/-- A single NCO occupation record (`Occupation` dataclass). -/
structure Occupation where
  nco_code : List Char
  title : List Char
  description : List Char
deriving DecidableEq, Repr

/-- Python truthiness of `bool(x and x.strip())` for a string `x`. -/
def pyTruthyStrip (l : List Char) : Bool :=
  !l.isEmpty && !(pyStrip l).isEmpty

/-- `Occupation.is_valid`: all fields populated, 4-digit code with leading
digit 1-9, title longer than 3, description longer than 20. -/
def Occupation.is_valid (o : Occupation) : Bool :=
  pyTruthyStrip o.nco_code && pyTruthyStrip o.title &&
  pyTruthyStrip o.description &&
  decide (o.nco_code.length = 4) && o.nco_code.all pyIsDigit &&
  !o.nco_code.isEmpty &&
  decide (1 ≤ (o.nco_code.headD '0').toNat - 48) &&
  decide (3 < o.title.length) && decide (20 < o.description.length)

/-- `NCOExtractor.is_valid_nco_code`. -/
def is_valid_nco_code (text : List Char) : Bool :=
  if text.isEmpty || !text.all pyIsDigit then false
  else if text.length ≠ 4 then false
  else if text.headD ' ' = '0' then false
  else if YEAR_DENYLIST.contains text then false
  else true

/-- Python `str.isupper`: at least one cased character and no lower-case
cased character (ASCII model). -/
def pyIsUpper (l : List Char) : Bool :=
  (l.any (fun c => isUpperAlpha c || isLowerAlpha c)) &&
  !(l.any isLowerAlpha)

/-- `NCOExtractor.is_header_line`. -/
def is_header_line (line : List Char) : Bool :=
  let line_lower := pyStrip (pyLowerStr line)
  if line_lower.length < 5 then false
  else if HEADER_KEYWORDS.any (fun kw => strContains line_lower kw) then true
  else
    let words := pySplit line
    if words.length ≤ 6 && pyIsUpper line then
      match words with
      | w :: _ => !is_valid_nco_code w
      | [] => false
    else false

/-- `NCOExtractor.is_metadata_section`. -/
def is_metadata_section (line : List Char) : Bool :=
  let line_lower := pyStrip (pyLowerStr line)
  METADATA_KEYWORDS.any (fun kw => strContains line_lower kw) ||
  searchAny metaSubcode line ||
  searchAny matchQp line_lower

/-- `NCOExtractor.should_stop_description`. -/
def should_stop_description (line : List Char) : Bool :=
  let line_lower := pyStrip (pyLowerStr line)
  searchAny matchIsco line_lower || searchAny matchUnitGroup line_lower ||
  searchAny matchSubGroup line_lower ||
  strContains line_lower "qualification pack".data ||
  strContains line_lower "qp-nos".data

/-- Bare page-number shape `^\d+$` (on an already-stripped line). -/
def pageNumberMatch (l : List Char) : Bool :=
  !l.isEmpty && l.all pyIsDigit

/-- Matcher for the lazy pattern `.*?PAT` (case-insensitive): scan forward
for the earliest occurrence of `pat`, failing on a newline (regex `.`
does not match a newline); returns the remainder after `pat`. -/
def findCI (pat : List Char) : List Char → Option (List Char)
  | [] => none
  | c :: rest =>
    match expectStrCI pat (c :: rest) with
    | some r => some r
    | none => if c = '\n' then none else findCI pat rest

/-- Matcher for `\s*\(.*?ISCO.*?\)` (case-insensitive) at the current
position, returning the remainder after the match. -/
def matchParenIsco (s : List Char) : Option (List Char) :=
  ((expectCh (fun c => c = '(') (s.dropWhile pyIsSpace)).bind
    (findCI "isco".data)).bind (findCI ")".data)

/-- Matcher for `\s*ISCO.*$` (case-insensitive) at the current position:
`.*` runs to the end of the string (or to a final trailing newline). -/
def matchIscoTail (s : List Char) : Option (List Char) :=
  (expectStrCI "isco".data (s.dropWhile pyIsSpace)).bind (fun r =>
    let r2 := r.dropWhile (fun c => c != '\n')
    if r2.isEmpty then some []
    else if r2 = ['\n'] then some r2
    else none)

/-- `re.sub(pattern, '', s)` for a pattern with no word-boundary
assertions: scan left to right, removing each match (fuel-bounded; the
matchers used consume at least one character, and fuel is the length). -/
def subAll (m : List Char → Option (List Char)) : Nat → List Char → List Char
  | 0, s => s
  | _ + 1, [] => []
  | fuel + 1, c :: rest =>
    match m (c :: rest) with
    | some r => subAll m fuel r
    | none => c :: subAll m fuel rest

/-- `re.sub` driver starting with fuel equal to the string length. -/
def subRun (m : List Char → Option (List Char)) (s : List Char) : List Char :=
  subAll m s.length s

/-- `re.sub(pattern, '', s)` for a pattern of the form `\bHEAD...TAIL\b`:
the scan tracks whether the previous character is a word character
(for the leading `\b`); both artifact patterns end in a word character,
so after a removal the previous character is a word character. -/
def subBound (m : List Char → Option (List Char)) :
    Nat → Bool → List Char → List Char
  | 0, _, s => s
  | _ + 1, _, [] => []
  | fuel + 1, prevWord, c :: rest =>
    if prevWord then c :: subBound m fuel (isWordChar c) rest
    else
      match m (c :: rest) with
      | some r => subBound m fuel true r
      | none => c :: subBound m fuel (isWordChar c) rest

/-- Matcher for `\bPage\s+\d+\b` (case-insensitive) at the current
position: literal, whitespace run, digit run, then a trailing word
boundary checked against the next character. -/
def matchPageArtifact (s : List Char) : Option (List Char) :=
  (((expectStrCI "page".data s).bind (run1 pyIsSpace)).bind
    (run1 pyIsDigit)).bind (fun r =>
      match r with
      | [] => some []
      | d :: _ => if isWordChar d then none else some r)

/-- Matcher for `\bCode\s+\d{4}\s+Title\b` (case-insensitive) at the
current position. -/
def matchCodeArtifact (s : List Char) : Option (List Char) :=
  ((((expectStrCI "code".data s).bind (run1 pyIsSpace)).bind
    (expectN pyIsDigit 4)).bind (run1 pyIsSpace)).bind (fun r =>
      (expectStrCI "title".data r).bind (fun r2 =>
        match r2 with
        | [] => some []
        | d :: _ => if isWordChar d then none else some r2))

/-- Helper for `collapseWs`: the flag records whether the previous
character was whitespace (so the current run is already represented). -/
def collapseAux : Bool → List Char → List Char
  | _, [] => []
  | prevWs, c :: rest =>
    if pyIsSpace c then
      if prevWs then collapseAux true rest
      else ' ' :: collapseAux true rest
    else c :: collapseAux false rest

/-- `re.sub(r'\s+', ' ', text)`: collapse each maximal whitespace run to
a single space. -/
def collapseWs (l : List Char) : List Char :=
  collapseAux false l

/-- The control characters removed by `clean_text`
(`[\x00-\x08\x0b-\x0c\x0e-\x1f]`). -/
def isRemCtrl (c : Char) : Bool :=
  c.toNat ≤ 8 || c.toNat = 11 || c.toNat = 12 ||
  (14 ≤ c.toNat && c.toNat ≤ 31)

/-- The control-character removal step of `clean_text`. -/
def filterCtrl (l : List Char) : List Char :=
  l.filter (fun c => !isRemCtrl c)

/-- `NCOExtractor.clean_text`: collapse whitespace, drop control
characters, remove `Page N` and `Code NNNN Title` artifacts, strip. -/
def clean_text (text : List Char) : List Char :=
  let t1 := collapseWs text
  let t2 := filterCtrl t1
  let t3 := subBound matchPageArtifact t2.length false t2
  let t4 := subBound matchCodeArtifact t3.length false t3
  pyStrip t4

/-- The title-cleaning sequence applied when a new occupation line is
seen: strip, remove `\s*\(.*?ISCO.*?\)`, remove `\s*ISCO.*$`, then
strip the characters `;,. ` from both ends. -/
def clean_title (t : List Char) : List Char :=
  let t1 := pyStrip t
  let t2 := subRun matchParenIsco t1
  let t3 := subRun matchIscoTail t2
  pyStripChars ";,. ".data t3

/-- Assembler state of `extract_occupations_from_column`: output so far,
open candidate, description buffer, metadata-resync flag. -/
structure ExtractState where
  occupations : List Occupation
  current : Option Occupation
  description_lines : List (List Char)
  in_metadata : Bool
deriving DecidableEq, Repr

/-- Finalize a candidate: join the buffer with single spaces into the
description and append it to the output only if `is_valid` holds. -/
def finalizeInto (occs : List Occupation) (c : Occupation)
    (buf : List (List Char)) : List Occupation :=
  let c2 := { c with description := pyStrip (joinSp buf) }
  if c2.is_valid then occs ++ [c2] else occs

/-- The `if current_occ and description_lines:` finalization used at
every finalization site (and at end of input): finalize the open
candidate when the buffer is non-empty, otherwise keep the output. -/
def finalizeBuf (st : ExtractState) : List Occupation :=
  match st.current with
  | some c =>
    if !st.description_lines.isEmpty then
      finalizeInto st.occupations c st.description_lines
    else st.occupations
  | none => st.occupations

/-- The new-occupation branch of the loop (`if is_valid_nco_code(first_word)`):
finalize the previous candidate, then start a new one unless the cleaned
title is shorter than 3 characters. -/
def startOcc (st : ExtractState) (line : List Char) : ExtractState :=
  if (clean_title (joinSp ((pySplit line).drop 1))).isEmpty ||
      decide ((clean_title (joinSp ((pySplit line).drop 1))).length < 3) then
    { occupations := finalizeBuf st, current := none,
      description_lines := [], in_metadata := false }
  else
    { occupations := finalizeBuf st,
      current := some { nco_code := firstWord line,
                        title := clean_title (joinSp ((pySplit line).drop 1)),
                        description := [] },
      description_lines := [], in_metadata := false }

/-- The description branch of the loop (`elif current_occ:`): stop
predicate first, then append when the line is neither metadata nor
header. -/
def descStep (st : ExtractState) (line : List Char) : ExtractState :=
  match st.current with
  | some _ =>
    if should_stop_description line then
      { occupations := finalizeBuf st, current := none,
        description_lines := [], in_metadata := true }
    else if !is_metadata_section line && !is_header_line line then
      { st with description_lines := st.description_lines ++ [line],
                in_metadata := false }
    else { st with in_metadata := false }
  | none => { st with in_metadata := false }

/-- The loop body on an already-stripped line.  Once the metadata gate
passes, the flag is necessarily clear (either it was already false, or
the leading token is a valid code and the flag is cleared), so the
later branches write `in_metadata := false`. -/
def processStripped (st : ExtractState) (line : List Char) : ExtractState :=
  if line.isEmpty || decide (line.length < 2) then st
  else if pageNumberMatch line && decide (line.length ≤ 3) then st
  else if is_metadata_section line then
    if st.current.isSome && !st.description_lines.isEmpty then
      { occupations := finalizeBuf st, current := none,
        description_lines := [], in_metadata := true }
    else { st with in_metadata := true }
  else if st.in_metadata && !is_valid_nco_code (firstWord line) then st
  else if is_header_line line then { st with in_metadata := false }
  else if is_valid_nco_code (firstWord line) then startOcc st line
  else descStep st line

/-- One iteration of the `for line in lines` loop of
`extract_occupations_from_column` (the `line = line.strip()` happens
first). -/
def processLine (st : ExtractState) (rawLine : List Char) : ExtractState :=
  processStripped st (pyStrip rawLine)

/-- The initial assembler state. -/
def initState : ExtractState :=
  { occupations := [], current := none, description_lines := [],
    in_metadata := false }

/-- `NCOExtractor.extract_occupations_from_column`. -/
def extract_occupations_from_column (lines : List (List Char)) :
    List Occupation :=
  finalizeBuf (lines.foldl processLine initState)

/-- `NCOExtractor.deduplicate`: keep the first record of each code
(the `seen` argument models the running `seen_codes` set). -/
def deduplicate : List Occupation → List (List Char) → List Occupation
  | [], _ => []
  | o :: rest, seen =>
    if o.nco_code ∈ seen then deduplicate rest seen
    else o :: deduplicate rest (o.nco_code :: seen)

/-- Modelled from the spec: `deduplicate` as a stable first-occurrence
filter keyed by `nco_code` — keep the head, then recursively keep the
first occurrence of every other code. -/
def firstOccurrenceFilter : List Occupation → List Occupation
  | [] => []
  | o :: rest =>
    o :: firstOccurrenceFilter (rest.filter (fun p => p.nco_code ≠ o.nco_code))
termination_by l => l.length
decreasing_by
  simp only [List.length_cons]
  have := List.length_filter_le (fun p => decide (p.nco_code ≠ o.nco_code)) rest
  omega

/-! ### Invariant lemmas about the assembler -/

/-- Records appended by `finalizeInto` pass the `is_valid` gate. -/
theorem finalizeInto_valid {occs : List Occupation} {c : Occupation}
    {buf : List (List Char)} (h : ∀ o ∈ occs, o.is_valid = true) :
    ∀ o ∈ finalizeInto occs c buf, o.is_valid = true := by
  intro o ho
  simp only [finalizeInto] at ho
  split at ho
  · rcases List.mem_append.mp ho with h1 | h1
    · exact h o h1
    · rcases List.mem_singleton.mp h1 with rfl
      assumption
  · exact h o ho

/-- Any record in the output of `finalizeInto` is an old record or
carries the candidate's code. -/
theorem mem_finalizeInto {occs : List Occupation} {c : Occupation}
    {buf : List (List Char)} {o : Occupation}
    (ho : o ∈ finalizeInto occs c buf) :
    o ∈ occs ∨ o.nco_code = c.nco_code := by
  simp only [finalizeInto] at ho
  split at ho
  · rcases List.mem_append.mp ho with h1 | h1
    · exact Or.inl h1
    · rcases List.mem_singleton.mp h1 with rfl
      exact Or.inr rfl
  · exact Or.inl ho

/-- `finalizeBuf` preserves "all output records are valid". -/
theorem finalizeBuf_valid {st : ExtractState}
    (h : ∀ o ∈ st.occupations, o.is_valid = true) :
    ∀ o ∈ finalizeBuf st, o.is_valid = true := by
  unfold finalizeBuf
  split
  · split
    · exact finalizeInto_valid h
    · exact h
  · exact h

/-- The output list after one step is either unchanged or the result of
finalizing the open candidate with the current buffer. -/
theorem processLine_occupations (st : ExtractState) (line : List Char) :
    (processLine st line).occupations = st.occupations ∨
    (processLine st line).occupations = finalizeBuf st := by
  unfold processLine processStripped startOcc descStep
  repeat' split
  all_goals try (left; rfl)
  all_goals right; rfl

/-- The open candidate after one step is unchanged, closed, or a fresh
candidate whose code passed `is_valid_nco_code`. -/
theorem processLine_current (st : ExtractState) (line : List Char) :
    (processLine st line).current = st.current ∨
    (processLine st line).current = none ∨
    ∃ c, (processLine st line).current = some c ∧
      is_valid_nco_code c.nco_code = true := by
  unfold processLine processStripped startOcc descStep
  repeat' split
  all_goals try (left; rfl)
  all_goals try (right; left; rfl)
  all_goals refine Or.inr (Or.inr ⟨_, rfl, ?_⟩)
  all_goals assumption

/-- `processLine` preserves "all output records are valid". -/
theorem processLine_valid {st : ExtractState} {line : List Char}
    (h : ∀ o ∈ st.occupations, o.is_valid = true) :
    ∀ o ∈ (processLine st line).occupations, o.is_valid = true := by
  rcases processLine_occupations st line with heq | heq
  · rw [heq]; exact h
  · rw [heq]; exact finalizeBuf_valid h

/-- The code-validity invariant carried through the assembler: all output
records and the open candidate (if any) have codes accepted by
`is_valid_nco_code`. -/
def codesOk (st : ExtractState) : Prop :=
  (∀ o ∈ st.occupations, is_valid_nco_code o.nco_code = true) ∧
  (∀ c, st.current = some c → is_valid_nco_code c.nco_code = true)

/-- `finalizeInto` preserves code validity when the candidate's code is
valid. -/
theorem finalizeInto_codes {occs : List Occupation} {c : Occupation}
    {buf : List (List Char)}
    (h : ∀ o ∈ occs, is_valid_nco_code o.nco_code = true)
    (hc : is_valid_nco_code c.nco_code = true) :
    ∀ o ∈ finalizeInto occs c buf, is_valid_nco_code o.nco_code = true := by
  intro o ho
  rcases mem_finalizeInto ho with h1 | h1
  · exact h o h1
  · rw [h1]; exact hc

/-- `finalizeBuf` preserves code validity under the `codesOk` invariant. -/
theorem finalizeBuf_codes {st : ExtractState} (h : codesOk st) :
    ∀ o ∈ finalizeBuf st, is_valid_nco_code o.nco_code = true := by
  obtain ⟨h1, h2⟩ := h
  unfold finalizeBuf
  split
  · split
    · rename_i c heq _
      exact finalizeInto_codes h1 (h2 c heq)
    · exact h1
  · exact h1

/-- `processLine` preserves `codesOk`. -/
theorem processLine_codesOk {st : ExtractState} {line : List Char}
    (h : codesOk st) : codesOk (processLine st line) := by
  constructor
  · rcases processLine_occupations st line with heq | heq
    · rw [heq]; exact h.1
    · rw [heq]; exact finalizeBuf_codes h
  · rcases processLine_current st line with heq | heq | ⟨c, heq, hv⟩
    · rw [heq]; exact h.2
    · rw [heq]; intro c hc; cases hc
    · rw [heq]; intro d hd
      cases hd
      exact hv

/-- `foldl processLine` preserves any invariant preserved by one step. -/
theorem foldl_processLine_inv {P : ExtractState → Prop}
    (hstep : ∀ st l, P st → P (processLine st l)) :
    ∀ (lines : List (List Char)) (st : ExtractState),
      P st → P (lines.foldl processLine st) := by
  intro lines
  induction lines with
  | nil => intro st h; exact h
  | cons l ls ih => intro st h; exact ih _ (hstep _ _ h)

/-! ### Character and strip lemmas -/

/-- A decimal digit is not whitespace. -/
theorem not_space_of_digit {c : Char} (h : pyIsDigit c = true) :
    pyIsSpace c = false := by
  rcases hs : pyIsSpace c
  · rfl
  · exfalso
    unfold pyIsDigit at h
    unfold pyIsSpace at hs
    simp only [Bool.and_eq_true, Bool.or_eq_true, decide_eq_true_eq] at h hs
    omega

/-- Characters are determined by their code points. -/
theorem char_toNat_inj {a b : Char} (h : a.toNat = b.toNat) : a = b := by
  apply Char.ext
  exact UInt32.toNat.inj h

/-- `str.strip()` returns the empty string iff the input is all
whitespace. -/
theorem pyStrip_eq_nil_iff {l : List Char} :
    pyStrip l = [] ↔ ∀ c ∈ l, pyIsSpace c = true := by
  unfold pyStrip
  rw [List.rdropWhile_eq_nil_iff]
  constructor
  · intro h c hc
    have hmem : c ∈ l.takeWhile pyIsSpace ++ l.dropWhile pyIsSpace := by
      rw [List.takeWhile_append_dropWhile]
      exact hc
    rcases List.mem_append.mp hmem with h1 | h1
    · exact List.mem_takeWhile_imp h1
    · exact h c h1
  · intro h c hc
    exact h c ((List.dropWhile_suffix pyIsSpace).subset hc)

/-- `str.strip()` is the identity on strings with no whitespace. -/
theorem pyStrip_no_ws {l : List Char} (h : ∀ c ∈ l, pyIsSpace c = false) :
    pyStrip l = l := by
  unfold pyStrip
  have h1 : l.dropWhile pyIsSpace = l := by
    rw [List.dropWhile_eq_self_iff]
    intro hl hp
    rw [h _ (l.get_mem 0 hl)] at hp
    cases hp
  rw [h1, List.rdropWhile_eq_self_iff]
  intro hl hp
  rw [h _ (List.getLast_mem hl)] at hp
  cases hp

/-- The default head of a nonempty list is a member. -/
theorem headD_mem {l : List Char} (h : l ≠ []) (d : Char) : l.headD d ∈ l := by
  cases l with
  | nil => exact absurd rfl h
  | cons c r => exact List.mem_cons_self c r

/-! ### Claim theorems: validity invariants and concrete checks -/

/-- Claim C1: every Occupation returned by
`extract_occupations_from_column` satisfies `is_valid`; all four
finalization sites gate the append on `is_valid` and drop invalid
candidates silently. -/
theorem claim_C1_extract_output_is_valid (lines : List (List Char)) :
    ∀ o ∈ extract_occupations_from_column lines, o.is_valid = true := by
  unfold extract_occupations_from_column
  apply finalizeBuf_valid
  refine foldl_processLine_inv
    (P := fun st => ∀ o ∈ st.occupations, o.is_valid = true)
    (fun st l h => processLine_valid h) lines initState ?_
  intro o ho
  cases ho

/-- Witness for C1 at a concrete input. -/
theorem claim_C1_witness :
    Occupation.is_valid
      { nco_code := "7212".data, title := "Welder".data,
        description := "Joins metal components using heat and gas torches.".data } = true :=
  claim_C1_extract_output_is_valid
    ["7212 Welder".data,
     "Joins metal components using heat and gas torches.".data]
    _ (by decide)

/-- Claim C9: every Occupation returned by
`extract_occupations_from_column` has a code accepted by
`is_valid_nco_code` (candidates are only created from tokens passing the
check and the code field is never mutated afterwards). -/
theorem claim_C9_extract_output_codes (lines : List (List Char)) :
    ∀ o ∈ extract_occupations_from_column lines,
      is_valid_nco_code o.nco_code = true := by
  unfold extract_occupations_from_column
  apply finalizeBuf_codes
  refine foldl_processLine_inv (P := codesOk)
    (fun st l h => processLine_codesOk h) lines initState ⟨?_, ?_⟩
  · intro o ho
    cases ho
  · intro c hc
    cases hc

/-- Witness for C9 at a concrete input. -/
theorem claim_C9_witness :
    is_valid_nco_code
      (Occupation.nco_code
        { nco_code := "9211".data, title := "Labourer".data,
          description := "Performs routine tasks on crop farms by hand.".data }) = true :=
  claim_C9_extract_output_codes
    ["9211 Labourer".data,
     "Performs routine tasks on crop farms by hand.".data]
    _ (by decide)

/-- Claim C7: the four-line column yields exactly one Occupation
(code 6111, title Farmer, description longer than 20); the 6112
candidate is dropped at end of input because its buffer is empty (the
line `x` is skipped by the length filter). -/
theorem claim_C7_concrete_assembly :
    extract_occupations_from_column
      ["6111 Farmer".data,
       "Grows crops on farmland using traditional methods for sustenance.".data,
       "6112 Gardener".data,
       "x".data] =
      [{ nco_code := "6111".data, title := "Farmer".data,
         description := "Grows crops on farmland using traditional methods for sustenance.".data }] ∧
    20 < "Grows crops on farmland using traditional methods for sustenance.".data.length := by
  constructor
  · decide
  · decide

/-- Claim C8: the five concrete code-validity checks. -/
theorem claim_C8_code_validity_cases :
    is_valid_nco_code "6111".data = true ∧
    is_valid_nco_code "0111".data = false ∧
    is_valid_nco_code "2015".data = false ∧
    is_valid_nco_code "611".data = false ∧
    is_valid_nco_code "61a1".data = false := by
  refine ⟨?_, ?_, ?_, ?_, ?_⟩ <;> decide

/-- Counterexample to claim C2 as stated: this record has a 4-digit code
with leading digit 1-9, title length 4 > 3 and description length
21 > 20, yet `is_valid` is false (the description is all blanks, and
`is_valid` also requires the stripped fields to be non-empty). -/
theorem claim_C2_counterexample :
    ¬(Occupation.is_valid
        { nco_code := "6111".data, title := "abcd".data,
          description := "                     ".data } = true ↔
      ("6111".data.length = 4 ∧ (∀ c ∈ "6111".data, pyIsDigit c = true) ∧
       "6111".data.headD '0' ≠ '0' ∧
       3 < "abcd".data.length ∧
       20 < "                     ".data.length)) := by
  decide

/-- `is_valid` unfolded into its eleven components. -/
theorem is_valid_parts (o : Occupation) :
    o.is_valid = true ↔
      (o.nco_code ≠ [] ∧ pyStrip o.nco_code ≠ [] ∧
       o.title ≠ [] ∧ pyStrip o.title ≠ [] ∧
       o.description ≠ [] ∧ pyStrip o.description ≠ [] ∧
       o.nco_code.length = 4 ∧ (∀ c ∈ o.nco_code, pyIsDigit c = true) ∧
       1 ≤ (o.nco_code.headD '0').toNat - 48 ∧
       3 < o.title.length ∧ 20 < o.description.length) := by
  unfold Occupation.is_valid pyTruthyStrip
  simp only [Bool.and_eq_true, Bool.not_eq_true', List.isEmpty_eq_false,
    decide_eq_true_eq, List.all_eq_true, ne_eq]
  tauto

/-- Claim C2 (amended): `is_valid` holds iff the code is exactly 4
digits with leading digit 1-9, the title is longer than 3 characters,
the description is longer than 20 characters, and the title and the
description each contain at least one non-whitespace character. -/
theorem claim_C2_is_valid_iff (o : Occupation) :
    o.is_valid = true ↔
      (o.nco_code.length = 4 ∧ (∀ c ∈ o.nco_code, pyIsDigit c = true) ∧
       o.nco_code.headD '0' ≠ '0' ∧
       3 < o.title.length ∧ (∃ c ∈ o.title, pyIsSpace c = false) ∧
       20 < o.description.length ∧
       (∃ c ∈ o.description, pyIsSpace c = false)) := by
  rw [is_valid_parts]
  constructor
  · rintro ⟨hc0, hcs, ht0, hts, hd0, hds, hlen, hdig, hhead, htlen, hdlen⟩
    have hne : o.nco_code.headD '0' ≠ '0' := by
      intro heq
      rw [heq] at hhead
      simp at hhead
    refine ⟨hlen, hdig, hne, htlen, ?_, hdlen, ?_⟩
    · by_contra hno
      push_neg at hno
      apply hts
      rw [pyStrip_eq_nil_iff]
      intro c hc
      rcases h : pyIsSpace c
      · exact absurd h (by simpa using hno c hc)
      · rfl
    · by_contra hno
      push_neg at hno
      apply hds
      rw [pyStrip_eq_nil_iff]
      intro c hc
      rcases h : pyIsSpace c
      · exact absurd h (by simpa using hno c hc)
      · rfl
  · rintro ⟨hlen, hdig, hne, htlen, ⟨ct, hct, hcts⟩, hdlen, ⟨cd, hcd, hcds⟩⟩
    have hcne : o.nco_code ≠ [] := by
      intro h
      rw [h] at hlen
      simp at hlen
    have hhd : pyIsDigit (o.nco_code.headD '0') = true :=
      hdig _ (headD_mem hcne '0')
    have htne : o.title ≠ [] := List.ne_nil_of_mem hct
    have hdne : o.description ≠ [] := List.ne_nil_of_mem hcd
    refine ⟨hcne, ?_, htne, ?_, hdne, ?_, hlen, hdig, ?_, htlen, hdlen⟩
    · rw [pyStrip_no_ws (fun c hc => not_space_of_digit (hdig c hc))]
      exact hcne
    · intro h
      rw [pyStrip_eq_nil_iff] at h
      rw [h ct hct] at hcts
      cases hcts
    · intro h
      rw [pyStrip_eq_nil_iff] at h
      rw [h cd hcd] at hcds
      cases hcds
    · unfold pyIsDigit at hhd
      simp only [Bool.and_eq_true, decide_eq_true_eq] at hhd
      have hnn : (o.nco_code.headD '0').toNat ≠ 48 := by
        intro h
        exact hne (char_toNat_inj (a := o.nco_code.headD '0') (b := '0') h)
      omega

/-- Witness for the amended C2 at a concrete record. -/
theorem claim_C2_witness :
    Occupation.is_valid
      { nco_code := "6111".data, title := "Farmer".data,
        description := "Grows crops using traditional methods.".data } = true :=
  (claim_C2_is_valid_iff _).mpr (by decide)

/-! ### Deduplication -/

/-- `deduplicate` with an arbitrary seen-set equals the spec's stable
first-occurrence filter applied to the unseen records. -/
theorem deduplicate_eq_filter (l : List Occupation) :
    ∀ seen : List (List Char),
      deduplicate l seen =
        firstOccurrenceFilter (l.filter (fun o => o.nco_code ∉ seen)) := by
  induction l with
  | nil => intro seen; simp [deduplicate, firstOccurrenceFilter]
  | cons o rest ih =>
    intro seen
    by_cases h : o.nco_code ∈ seen
    · rw [deduplicate, if_pos h, List.filter_cons_of_neg (by simpa using h)]
      exact ih seen
    · rw [deduplicate, if_neg h, List.filter_cons_of_pos (by simpa using h)]
      rw [firstOccurrenceFilter, List.filter_filter]
      rw [ih (o.nco_code :: seen)]
      have hf : List.filter (fun p => decide (p.nco_code ∉ o.nco_code :: seen)) rest =
          List.filter
            (fun p => decide (p.nco_code ≠ o.nco_code) && decide (p.nco_code ∉ seen))
            rest := by
        apply List.filter_congr
        intro p _
        simp only [List.mem_cons, not_or, Bool.decide_and, ne_eq]
      rw [hf]

/-- Claim C5: `deduplicate` is the stable first-occurrence filter keyed
by `nco_code` (first record with each code kept, later duplicates
dropped, original relative order preserved), and on records with codes
`[6111, 6112, 6111]` it keeps exactly the first 6111-record followed by
the 6112-record. -/
theorem claim_C5_deduplicate :
    (∀ l : List Occupation, deduplicate l [] = firstOccurrenceFilter l) ∧
    deduplicate
      [{ nco_code := "6111".data, title := "Farmer".data,
         description := "Grows crops on farmland for local markets.".data },
       { nco_code := "6112".data, title := "Gardener".data,
         description := "Maintains gardens and cultivates flowers.".data },
       { nco_code := "6111".data, title := "Farmer repeat".data,
         description := "A later duplicate with different text.".data }] [] =
      [{ nco_code := "6111".data, title := "Farmer".data,
         description := "Grows crops on farmland for local markets.".data },
       { nco_code := "6112".data, title := "Gardener".data,
         description := "Maintains gardens and cultivates flowers.".data }] := by
  constructor
  · intro l
    rw [deduplicate_eq_filter l []]
    congr 1
    apply List.filter_eq_self.mpr
    intro o hmem
    simp
  · decide

/-! ### Substring and matcher bounds -/

/-- `strContains` agrees with list-infix containment. -/
theorem strContains_iff {s pat : List Char} :
    strContains s pat = true ↔ pat <:+: s := by
  unfold strContains
  induction s with
  | nil =>
    simp only [searchAny, List.isPrefixOf_iff_prefix, List.infix_nil]
    constructor
    · intro h
      simpa using List.prefix_nil.mp h
    · intro h
      subst h
      simp
  | cons c rest ih =>
    simp only [searchAny, Bool.or_eq_true, List.isPrefixOf_iff_prefix, ih,
      List.infix_cons_iff]

/-- A contained pattern is no longer than the string. -/
theorem strContains_length {s pat : List Char} (h : strContains s pat = true) :
    pat.length ≤ s.length :=
  (strContains_iff.mp h).length_le

/-- A string of digits contains no pattern having a non-digit character. -/
theorem strContains_all_digits {l pat : List Char}
    (hl : ∀ c ∈ l, pyIsDigit c = true)
    (hp : ∃ c ∈ pat, pyIsDigit c = false) :
    strContains l pat = false := by
  rcases h : strContains l pat
  · rfl
  · exfalso
    obtain ⟨c, hc, hcd⟩ := hp
    have hmem : c ∈ l := (strContains_iff.mp h).subset hc
    rw [hl c hmem] at hcd
    cases hcd

/-- A short string contains no long pattern. -/
theorem strContains_short {l pat : List Char} (h : l.length < pat.length) :
    strContains l pat = false := by
  rcases hc : strContains l pat
  · rfl
  · exact absurd (strContains_length hc) (by omega)

/-- `searchAny` finds nothing when every accepting suffix would have to
be longer than the whole string. -/
theorem searchAny_short {p : List Char → Bool} {m : Nat}
    (hmin : ∀ t, p t = true → m ≤ t.length) :
    ∀ s : List Char, s.length < m → searchAny p s = false := by
  intro s
  induction s with
  | nil =>
    intro hlt
    rcases h : p []
    · simp [searchAny, h]
    · have := hmin [] h
      simp at this
      omega
  | cons c rest ih =>
    intro hlt
    simp only [searchAny, Bool.or_eq_false_iff]
    constructor
    · rcases h : p (c :: rest)
      · rfl
      · have := hmin _ h
        simp at this hlt
        omega
    · exact ih (by simp at hlt ⊢; omega)

/-- Consumption bound for `expectStr`. -/
theorem expectStr_length {pat s r : List Char}
    (h : expectStr pat s = some r) : s.length = pat.length + r.length := by
  unfold expectStr at h
  split at h
  · rename_i hp
    injection h with h
    subst h
    have := (List.isPrefixOf_iff_prefix.mp hp).length_le
    simp [List.length_drop]
    omega
  · cases h

/-- Consumption bound for `expectStrCI`. -/
theorem expectStrCI_length {pat s r : List Char}
    (h : expectStrCI pat s = some r) : s.length = pat.length + r.length := by
  unfold expectStrCI at h
  split at h
  · rename_i hp
    injection h with h
    subst h
    have h1 : (List.map pyLower (s.take pat.length)).length = pat.length := by
      rw [hp]
    simp only [List.length_map, List.length_take] at h1
    simp [List.length_drop]
    omega
  · cases h

/-- Consumption bound for `expectCh`. -/
theorem expectCh_length {q : Char → Bool} {s r : List Char}
    (h : expectCh q s = some r) : s.length = 1 + r.length := by
  cases s with
  | nil => simp [expectCh] at h
  | cons c t =>
    simp only [expectCh] at h
    split at h
    · injection h with h
      subst h
      simp [Nat.add_comm]
    · cases h

/-- Consumption bound for `expectN`. -/
theorem expectN_length {q : Char → Bool} {n : Nat} {s r : List Char}
    (h : expectN q n s = some r) : s.length = n + r.length := by
  unfold expectN at h
  split at h
  · rename_i hp
    injection h with h
    subst h
    simp [List.length_drop]
    omega
  · cases h

/-- Consumption bound for `run1`: it consumes at least one character. -/
theorem run1_length {q : Char → Bool} {s r : List Char}
    (h : run1 q s = some r) : r.length + 1 ≤ s.length := by
  cases s with
  | nil => simp [run1] at h
  | cons c t =>
    simp only [run1] at h
    split at h
    · rename_i hq
      injection h with h
      subst h
      rw [List.dropWhile_cons_of_pos hq]
      have h3 := (List.dropWhile_suffix q (l := t)).length_le
      simp only [List.length_cons]
      omega
    · cases h

/-- A run of the subcode pattern needs at least 9 characters. -/
theorem metaSubcode_min {t : List Char} (h : metaSubcode t = true) :
    9 ≤ t.length := by
  unfold metaSubcode at h
  rw [Option.isSome_iff_exists] at h
  obtain ⟨r, hr⟩ := h
  rw [Option.bind_eq_some] at hr
  obtain ⟨r1, hr1, hr1b⟩ := hr
  rw [Option.bind_eq_some] at hr1
  obtain ⟨r2, hr2, hr2b⟩ := hr1
  have e1 := expectN_length hr2
  have e2 := expectCh_length hr2b
  have e3 := expectN_length hr1b
  omega

/-- A run of the QP-code pattern needs at least 6 characters. -/
theorem matchQp_min {t : List Char} (h : matchQp t = true) :
    6 ≤ t.length := by
  unfold matchQp at h
  rw [Option.isSome_iff_exists] at h
  obtain ⟨r, hr⟩ := h
  rw [Option.bind_eq_some] at hr
  obtain ⟨r3, hr3, hr3b⟩ := hr
  rw [Option.bind_eq_some] at hr3
  obtain ⟨r2, hr2, hr2b⟩ := hr3
  rw [Option.bind_eq_some] at hr2
  obtain ⟨r1, hr1, hr1b⟩ := hr2
  split at hr1
  · rename_i hsec
    injection hr1 with hr1
    subst hr1
    simp only [List.any_eq_true] at hsec
    obtain ⟨p, hp, hpre⟩ := hsec
    have hp3 : p.length = 3 := by
      fin_cases hp <;> rfl
    have hple := (List.isPrefixOf_iff_prefix.mp hpre).length_le
    have e2 := expectCh_length hr1b
    have e3 := expectCh_length hr2b
    have e4 := run1_length hr3b
    simp [List.length_drop] at e2
    omega
  · cases hr1

/-- A run of the `isco[-\s]*08` pattern needs at least 6 characters. -/
theorem matchIsco_min {t : List Char} (h : matchIsco t = true) :
    6 ≤ t.length := by
  unfold matchIsco at h
  rw [Option.isSome_iff_exists] at h
  obtain ⟨r, hr⟩ := h
  rw [Option.bind_eq_some] at hr
  obtain ⟨r1, hr1, hr1b⟩ := hr
  rw [Option.map_eq_some'] at hr1
  obtain ⟨r0, hr0, hr0b⟩ := hr1
  have e1 := expectStr_length hr0
  have e2 := expectStr_length hr1b
  subst hr0b
  have e3 := (List.dropWhile_suffix (l := r0)
    (fun c => c = '-' || pyIsSpace c)).length_le
  simp only [List.length_cons] at e1 e2
  simp at e1 e2
  omega

/-- A run of the `unit group` pattern needs at least 14 characters. -/
theorem matchUnitGroup_min {t : List Char} (h : matchUnitGroup t = true) :
    14 ≤ t.length := by
  unfold matchUnitGroup at h
  rw [Option.isSome_iff_exists] at h
  obtain ⟨r, hr⟩ := h
  rw [Option.bind_eq_some] at hr
  obtain ⟨r1, hr1, hr1b⟩ := hr
  have e1 := expectStr_length hr1
  simp only at hr1b
  have e4 := expectN_length hr1b
  have e23 : (match expectCh (fun c => c = ':') r1 with
      | some x => x
      | none => r1).length ≤ r1.length := by
    split
    · rename_i heq
      have := expectCh_length heq
      omega
    · omega
  have e5 := (List.dropWhile_suffix (l := (match expectCh (fun c => c = ':') r1 with
      | some x => x
      | none => r1)) pyIsSpace).length_le
  simp at e1
  omega

/-- A run of the `sub-group` pattern needs at least 12 characters. -/
theorem matchSubGroup_min {t : List Char} (h : matchSubGroup t = true) :
    12 ≤ t.length := by
  unfold matchSubGroup at h
  rw [Option.isSome_iff_exists] at h
  obtain ⟨r, hr⟩ := h
  rw [Option.bind_eq_some] at hr
  obtain ⟨r1, hr1, hr1b⟩ := hr
  have e1 := expectStr_length hr1
  simp only at hr1b
  have e4 := expectN_length hr1b
  have e23 : (match expectCh (fun c => c = ':') r1 with
      | some x => x
      | none => r1).length ≤ r1.length := by
    split
    · rename_i heq
      have := expectCh_length heq
      omega
    · omega
  have e5 := (List.dropWhile_suffix (l := (match expectCh (fun c => c = ':') r1 with
      | some x => x
      | none => r1)) pyIsSpace).length_le
  simp at e1
  omega

/-! ### Lines made of digits -/

/-- Lower-casing fixes digits. -/
theorem pyLower_digit {c : Char} (h : pyIsDigit c = true) : pyLower c = c := by
  unfold pyLower
  rw [if_neg]
  intro hu
  unfold pyIsDigit at h
  unfold isUpperAlpha at hu
  simp only [Bool.and_eq_true, decide_eq_true_eq] at h hu
  omega

/-- Lower-casing is the identity on digit strings. -/
theorem pyLowerStr_digits {l : List Char}
    (h : ∀ c ∈ l, pyIsDigit c = true) : pyLowerStr l = l := by
  unfold pyLowerStr
  rw [List.map_congr_left (fun c hc => pyLower_digit (h c hc))]
  exact List.map_id l

/-- `pySplitAux` on a whitespace-free string extends the accumulator. -/
theorem pySplitAux_no_ws (l : List Char) :
    ∀ acc : List Char, (∀ c ∈ l, pyIsSpace c = false) →
      pySplitAux l acc =
        if (acc.reverse ++ l).isEmpty then [] else [acc.reverse ++ l] := by
  induction l with
  | nil =>
    intro acc _
    simp [pySplitAux]
  | cons c rest ih =>
    intro acc hw
    have hc : pyIsSpace c = false := hw c (List.mem_cons_self c rest)
    simp only [pySplitAux, hc, Bool.false_eq_true, if_false]
    rw [ih (c :: acc) (fun d hd => hw d (List.mem_cons_of_mem c hd))]
    simp

/-- `str.split()` of a nonempty whitespace-free string is that string. -/
theorem pySplit_no_ws {l : List Char} (hne : l ≠ [])
    (hw : ∀ c ∈ l, pyIsSpace c = false) : pySplit l = [l] := by
  unfold pySplit
  rw [pySplitAux_no_ws l [] hw]
  simp [hne]

/-- A line of 4 digits is not classified as a metadata section. -/
theorem is_metadata_section_digits {line : List Char}
    (hlen : line.length = 4) (hdig : ∀ c ∈ line, pyIsDigit c = true) :
    is_metadata_section line = false := by
  have hnws : ∀ c ∈ line, pyIsSpace c = false :=
    fun c hc => not_space_of_digit (hdig c hc)
  have hll : pyStrip (pyLowerStr line) = line := by
    rw [pyLowerStr_digits hdig, pyStrip_no_ws hnws]
  unfold is_metadata_section
  rw [hll]
  simp only [Bool.or_eq_false_iff]
  refine ⟨⟨?_, ?_⟩, ?_⟩
  · rw [List.any_eq_false]
    intro kw hkw
    simp only [Bool.not_eq_true]
    fin_cases hkw
    · exact strContains_short (by rw [hlen]; decide)
    · exact strContains_short (by rw [hlen]; decide)
    · exact strContains_short (by rw [hlen]; decide)
    · exact strContains_all_digits hdig (by decide)
    · exact strContains_short (by rw [hlen]; decide)
    · exact strContains_short (by rw [hlen]; decide)
    · exact strContains_short (by rw [hlen]; decide)
    · exact strContains_short (by rw [hlen]; decide)
    · exact strContains_short (by rw [hlen]; decide)
    · exact strContains_short (by rw [hlen]; decide)
    · exact strContains_short (by rw [hlen]; decide)
  · exact searchAny_short (fun t ht => metaSubcode_min ht) line (by omega)
  · exact searchAny_short (fun t ht => matchQp_min ht) line (by omega)

/-- A line of 4 digits is not classified as a structural header (it is
below the 5-character minimum). -/
theorem is_header_line_digits {line : List Char}
    (hlen : line.length = 4) (hdig : ∀ c ∈ line, pyIsDigit c = true) :
    is_header_line line = false := by
  have hnws : ∀ c ∈ line, pyIsSpace c = false :=
    fun c hc => not_space_of_digit (hdig c hc)
  have hll : pyStrip (pyLowerStr line) = line := by
    rw [pyLowerStr_digits hdig, pyStrip_no_ws hnws]
  unfold is_header_line
  simp only [hll, hlen]
  rw [if_pos]
  omega

/-- A line of 4 digits does not satisfy the stop predicate. -/
theorem should_stop_description_digits {line : List Char}
    (hlen : line.length = 4) (hdig : ∀ c ∈ line, pyIsDigit c = true) :
    should_stop_description line = false := by
  have hnws : ∀ c ∈ line, pyIsSpace c = false :=
    fun c hc => not_space_of_digit (hdig c hc)
  have hll : pyStrip (pyLowerStr line) = line := by
    rw [pyLowerStr_digits hdig, pyStrip_no_ws hnws]
  unfold should_stop_description
  rw [hll]
  simp only [Bool.or_eq_false_iff]
  refine ⟨⟨⟨⟨?_, ?_⟩, ?_⟩, ?_⟩, ?_⟩
  · exact searchAny_short (fun t ht => matchIsco_min ht) line (by omega)
  · exact searchAny_short (fun t ht => matchUnitGroup_min ht) line (by omega)
  · exact searchAny_short (fun t ht => matchSubGroup_min ht) line (by omega)
  · exact strContains_short (by rw [hlen]; decide)
  · exact strContains_short (by rw [hlen]; decide)

/-! ### Branch-selection lemmas for the loop body -/

/-- With equal states, setting the metadata flag to its current value is
a no-op. -/
theorem setFlag_eq_self {st : ExtractState} {b : Bool}
    (h : st.in_metadata = b) : { st with in_metadata := b } = st := by
  cases st
  subst h
  rfl

/-- When a line passes the early filters and its leading token is a
valid code, the loop body runs the new-occupation branch. -/
theorem processStripped_eq_startOcc {st : ExtractState} {line : List Char}
    (hlen : 2 ≤ line.length)
    (hpage : (pageNumberMatch line && decide (line.length ≤ 3)) = false)
    (hmeta : is_metadata_section line = false)
    (hhead : is_header_line line = false)
    (hcode : is_valid_nco_code (firstWord line) = true) :
    processStripped st line = startOcc st line := by
  have h0 : line.isEmpty = false := by
    rw [List.isEmpty_eq_false]
    intro h
    subst h
    simp at hlen
  have h1 : (line.isEmpty || decide (line.length < 2)) = false := by
    rw [h0]
    simp
    omega
  unfold processStripped
  simp [h1, hpage, hmeta, hhead, hcode]

/-- When a line passes the early filters, the flag is clear, and the
leading token is not a valid code, the loop body runs the description
branch. -/
theorem processStripped_eq_descStep {st : ExtractState} {line : List Char}
    (hlen : 2 ≤ line.length)
    (hpage : (pageNumberMatch line && decide (line.length ≤ 3)) = false)
    (hmeta : is_metadata_section line = false)
    (hflag : st.in_metadata = false)
    (hhead : is_header_line line = false)
    (hcode : is_valid_nco_code (firstWord line) = false) :
    processStripped st line = descStep st line := by
  have h0 : line.isEmpty = false := by
    rw [List.isEmpty_eq_false]
    intro h
    subst h
    simp at hlen
  have h1 : (line.isEmpty || decide (line.length < 2)) = false := by
    rw [h0]
    simp
    omega
  unfold processStripped
  simp [h1, hpage, hmeta, hhead, hcode, hflag]

/-- While the metadata flag is set with no open candidate, any line
whose leading token is not a valid code leaves the state unchanged. -/
theorem processStripped_resync_skip {st : ExtractState} {line : List Char}
    (hflag : st.in_metadata = true) (hcur : st.current = none)
    (hcode : is_valid_nco_code (firstWord line) = false) :
    processStripped st line = st := by
  unfold processStripped
  split
  · rfl
  · split
    · rfl
    · split
      · split
        · rename_i hcond
          rw [hcur] at hcond
          simp at hcond
        · exact setFlag_eq_self hflag
      · rw [if_pos (by rw [hflag, hcode]; rfl)]

/-- When the cleaned title is long enough, the new-occupation branch
finalizes the previous candidate and opens a fresh one. -/
theorem startOcc_spec {st : ExtractState} {line : List Char}
    (htitle : 3 ≤ (clean_title (joinSp ((pySplit line).drop 1))).length) :
    startOcc st line =
      { occupations := finalizeBuf st,
        current := some { nco_code := firstWord line,
                          title := clean_title (joinSp ((pySplit line).drop 1)),
                          description := [] },
        description_lines := [], in_metadata := false } := by
  unfold startOcc
  rw [if_neg]
  simp only [Bool.or_eq_true, decide_eq_true_eq, List.isEmpty_iff]
  push_neg
  constructor
  · intro h
    rw [h] at htitle
    simp at htitle
  · omega

/-- When a line passes the early filters, its leading token is a valid
code, and it is a header line, the loop body only clears the flag. -/
theorem processStripped_eq_header {st : ExtractState} {line : List Char}
    (hlen : 2 ≤ line.length)
    (hpage : (pageNumberMatch line && decide (line.length ≤ 3)) = false)
    (hmeta : is_metadata_section line = false)
    (hcode : is_valid_nco_code (firstWord line) = true)
    (hhead : is_header_line line = true) :
    processStripped st line = { st with in_metadata := false } := by
  have h0 : line.isEmpty = false := by
    rw [List.isEmpty_eq_false]
    intro h
    subst h
    simp at hlen
  have h1 : (line.isEmpty || decide (line.length < 2)) = false := by
    rw [h0]
    simp
    omega
  unfold processStripped
  simp [h1, hpage, hmeta, hhead, hcode]

/-- Counterexample to claim C3 as stated: the line `6111 Group Farmer`
is not noise, is not metadata, and its first token is a valid code, yet
it does not start a candidate — the structural-header test runs first
and the keyword `group` classifies the line as a header, so it is
skipped with no state change. -/
theorem claim_C3_counterexample :
    is_valid_nco_code (firstWord "6111 Group Farmer".data) = true ∧
    is_metadata_section "6111 Group Farmer".data = false ∧
    2 ≤ "6111 Group Farmer".data.length ∧
    is_header_line "6111 Group Farmer".data = true ∧
    processLine initState "6111 Group Farmer".data = initState := by
  refine ⟨?_, ?_, ?_, ?_, ?_⟩ <;> decide

/-- Claim C3 (amended): the structural-header test runs before the
OccupationStart test; a line that is not noise or metadata and whose
first token is a valid 4-digit code starts a new candidate only when it
is additionally not classified as a header and its cleaned title is at
least 3 characters long.  (The all-caps header rule never captures such
lines, but the keyword rule applies regardless of the leading code.) -/
theorem claim_C3_start_order (st : ExtractState) (line : List Char)
    (hstrip : pyStrip line = line)
    (hlen : 2 ≤ line.length)
    (hpage : (pageNumberMatch line && decide (line.length ≤ 3)) = false)
    (hmeta : is_metadata_section line = false)
    (hhead : is_header_line line = false)
    (hcode : is_valid_nco_code (firstWord line) = true)
    (htitle : 3 ≤ (clean_title (joinSp ((pySplit line).drop 1))).length) :
    processLine st line =
      { occupations := finalizeBuf st,
        current := some { nco_code := firstWord line,
                          title := clean_title (joinSp ((pySplit line).drop 1)),
                          description := [] },
        description_lines := [], in_metadata := false } := by
  unfold processLine
  rw [hstrip, processStripped_eq_startOcc hlen hpage hmeta hhead hcode]
  exact startOcc_spec htitle

/-- Witness for the amended C3 at a concrete input. -/
theorem claim_C3_witness :
    processLine initState "2345 Potter".data =
      { occupations := [],
        current := some { nco_code := "2345".data, title := "Potter".data,
                          description := [] },
        description_lines := [], in_metadata := false } :=
  (claim_C3_start_order initState "2345 Potter".data (by decide) (by decide)
    (by decide) (by decide) (by decide) (by decide) (by decide)).trans
    (by decide)

/-- Counterexample to claim C6 as stated: the stop-shaped line
`ISCO-08 Unit Group: 6111` does not finalize the open candidate — it
contains the header keyword `group`, so the header check (which runs
before the stop predicate) skips it with no state change: the candidate
stays open and the metadata flag stays clear. -/
theorem claim_C6_counterexample :
    should_stop_description "ISCO-08 Unit Group: 6111".data = true ∧
    processLine
      { occupations := [],
        current := some { nco_code := "6111".data, title := "Farmer".data,
                          description := [] },
        description_lines :=
          ["Grows crops on farmland using traditional methods.".data],
        in_metadata := false }
      "ISCO-08 Unit Group: 6111".data =
      { occupations := [],
        current := some { nco_code := "6111".data, title := "Farmer".data,
                          description := [] },
        description_lines :=
          ["Grows crops on farmland using traditional methods.".data],
        in_metadata := false } := by
  constructor
  · decide
  · decide

/-- Claim C6 (amended): the stop predicate is consulted only for lines
that survive the earlier checks — `unit group`/`sub-group` markers are
skipped as headers (keyword `group`) and qualification-pack lines are
caught by the metadata rule, so stop-finalization fires only for
surviving stop lines (e.g. a plain ISCO-08 reference).  For such a line
the open candidate is finalized (appended only if the buffer is
non-empty and the record valid), the candidate is cleared, and the
metadata flag is set.  While the flag is set with no open candidate,
every line whose leading token is not a valid code is skipped with no
state change.  A line with a valid leading code clears the flag; it
starts a fresh candidate when it is not header-classified and its
cleaned title has length at least 3, while a header-classified code
line only clears the flag. -/
theorem claim_C6_stop_and_resync :
    (∀ (st : ExtractState) (line : List Char),
      pyStrip line = line → 2 ≤ line.length →
      (pageNumberMatch line && decide (line.length ≤ 3)) = false →
      is_metadata_section line = false →
      st.in_metadata = false → st.current.isSome = true →
      is_header_line line = false →
      is_valid_nco_code (firstWord line) = false →
      should_stop_description line = true →
      processLine st line =
        { occupations := finalizeBuf st, current := none,
          description_lines := [], in_metadata := true }) ∧
    (∀ (st : ExtractState) (line : List Char),
      st.in_metadata = true → st.current = none →
      is_valid_nco_code (firstWord (pyStrip line)) = false →
      processLine st line = st) ∧
    (∀ (st : ExtractState) (line : List Char),
      pyStrip line = line → 2 ≤ line.length →
      (pageNumberMatch line && decide (line.length ≤ 3)) = false →
      is_metadata_section line = false →
      st.in_metadata = true →
      is_valid_nco_code (firstWord line) = true →
      is_header_line line = false →
      3 ≤ (clean_title (joinSp ((pySplit line).drop 1))).length →
      processLine st line =
        { occupations := finalizeBuf st,
          current := some { nco_code := firstWord line,
                            title := clean_title (joinSp ((pySplit line).drop 1)),
                            description := [] },
          description_lines := [], in_metadata := false }) ∧
    (∀ (st : ExtractState) (line : List Char),
      pyStrip line = line → 2 ≤ line.length →
      (pageNumberMatch line && decide (line.length ≤ 3)) = false →
      is_metadata_section line = false →
      st.in_metadata = true →
      is_valid_nco_code (firstWord line) = true →
      is_header_line line = true →
      processLine st line = { st with in_metadata := false }) := by
  refine ⟨?_, ?_, ?_, ?_⟩
  · intro st line hstrip hlen hpage hmeta hflag hcur hhead hcode hstop
    unfold processLine
    rw [hstrip, processStripped_eq_descStep hlen hpage hmeta hflag hhead hcode]
    unfold descStep
    rcases hc : st.current with _ | c
    · rw [hc] at hcur
      simp at hcur
    · simp only [hc, hstop, if_true]
  · intro st line hflag hcur hcode
    unfold processLine
    exact processStripped_resync_skip hflag hcur hcode
  · intro st line hstrip hlen hpage hmeta hflag hcode hhead htitle
    unfold processLine
    rw [hstrip, processStripped_eq_startOcc hlen hpage hmeta hhead hcode]
    exact startOcc_spec htitle
  · intro st line hstrip hlen hpage hmeta hflag hcode hhead
    unfold processLine
    rw [hstrip]
    exact processStripped_eq_header hlen hpage hmeta hcode hhead

/-- Witness for the amended C6: all four behaviours at concrete
states and lines. -/
theorem claim_C6_witness :
    processLine
      { occupations := [],
        current := some { nco_code := "6111".data, title := "Farmer".data,
                          description := [] },
        description_lines :=
          ["Grows crops using careful traditional methods.".data],
        in_metadata := false }
      "See ISCO-08 reference".data =
      { occupations :=
          [{ nco_code := "6111".data, title := "Farmer".data,
             description :=
               "Grows crops using careful traditional methods.".data }],
        current := none, description_lines := [], in_metadata := true } ∧
    processLine
      { occupations := [], current := none, description_lines := [],
        in_metadata := true } "random noise here".data =
      { occupations := [], current := none, description_lines := [],
        in_metadata := true } ∧
    processLine
      { occupations := [], current := none, description_lines := [],
        in_metadata := true } "2345 Potter".data =
      { occupations := [],
        current := some { nco_code := "2345".data, title := "Potter".data,
                          description := [] },
        description_lines := [], in_metadata := false } ∧
    processLine
      { occupations := [], current := none, description_lines := [],
        in_metadata := true } "2345 Group Leaders".data =
      { occupations := [], current := none, description_lines := [],
        in_metadata := false } := by
  refine ⟨?_, ?_, ?_, ?_⟩
  · exact (claim_C6_stop_and_resync.1 _ _ (by decide) (by decide) (by decide)
      (by decide) (by decide) (by decide) (by decide) (by decide)
      (by decide)).trans (by decide)
  · exact claim_C6_stop_and_resync.2.1 _ _ (by decide) (by decide) (by decide)
  · exact (claim_C6_stop_and_resync.2.2.1 _ _ (by decide) (by decide)
      (by decide) (by decide) (by decide) (by decide) (by decide)
      (by decide)).trans (by decide)
  · exact (claim_C6_stop_and_resync.2.2.2 _ _ (by decide) (by decide)
      (by decide) (by decide) (by decide) (by decide) (by decide)).trans
      (by decide)

/-- Claim C10: a standalone 4-digit token that fails code validity,
seen while a candidate is open and the metadata flag is clear, is
appended to the description buffer (it is not a page number, not
metadata, not a header, not a stop line, and not a valid code). -/
theorem claim_C10_bare_invalid_code_token (st : ExtractState)
    (c : Occupation) (line : List Char)
    (hlen : line.length = 4)
    (hdig : ∀ ch ∈ line, pyIsDigit ch = true)
    (hcode : is_valid_nco_code line = false)
    (hflag : st.in_metadata = false)
    (hcur : st.current = some c) :
    processLine st line =
      { occupations := st.occupations, current := st.current,
        description_lines := st.description_lines ++ [line],
        in_metadata := false } := by
  have hnws : ∀ ch ∈ line, pyIsSpace ch = false :=
    fun ch hch => not_space_of_digit (hdig ch hch)
  have hne : line ≠ [] := by
    intro h
    rw [h] at hlen
    simp at hlen
  have hstrip : pyStrip line = line := pyStrip_no_ws hnws
  have hfw : firstWord line = line := by
    unfold firstWord
    rw [pySplit_no_ws hne hnws]
    rfl
  have hpage : (pageNumberMatch line && decide (line.length ≤ 3)) = false := by
    rw [hlen]
    simp
  have hmeta := is_metadata_section_digits hlen hdig
  have hhead := is_header_line_digits hlen hdig
  have hstop := should_stop_description_digits hlen hdig
  have hcode2 : is_valid_nco_code (firstWord line) = false := by
    rw [hfw]
    exact hcode
  unfold processLine
  rw [hstrip,
    processStripped_eq_descStep (by omega) hpage hmeta hflag hhead hcode2]
  unfold descStep
  rcases hc : st.current with _ | d
  · rw [hc] at hcur
    cases hcur
  · simp only [hc, hstop, Bool.false_eq_true, if_false, hmeta, hhead,
      Bool.not_false, Bool.and_self, if_true]

/-- Witness for C10: the bare line `2015` extends an open candidate's
buffer. -/
theorem claim_C10_witness :
    processLine
      { occupations := [],
        current := some { nco_code := "6111".data, title := "Farmer".data,
                          description := [] },
        description_lines := [], in_metadata := false }
      "2015".data =
      { occupations := [],
        current := some { nco_code := "6111".data, title := "Farmer".data,
                          description := [] },
        description_lines := ["2015".data], in_metadata := false } :=
  (claim_C10_bare_invalid_code_token _
    { nco_code := "6111".data, title := "Farmer".data, description := [] }
    "2015".data (by decide) (by decide)
    (by decide) (by decide) (by decide)).trans (by decide)

/-! ### Idempotence infrastructure for `clean_text` -/

/-- Space is the canonical whitespace; all whitespace characters of a
normalized string are plain spaces. -/
def wsNormal (l : List Char) : Prop :=
  ∀ c ∈ l, pyIsSpace c = true → c = ' '

/-- No two adjacent spaces. -/
def noDbl (l : List Char) : Prop :=
  List.Chain' (fun a b => ¬(a = ' ' ∧ b = ' ')) l

/-- Characters of `collapseAux` output: a space, or a non-whitespace
character of the input. -/
theorem mem_collapseAux {c : Char} :
    ∀ (l : List Char) (b : Bool), c ∈ collapseAux b l →
      c = ' ' ∨ (c ∈ l ∧ pyIsSpace c = false) := by
  intro l
  induction l with
  | nil => intro b h; cases h
  | cons d rest ih =>
    intro b h
    by_cases hd : pyIsSpace d = true
    · rcases b with _ | _
      · simp only [collapseAux, hd, if_true, Bool.false_eq_true, if_false,
          List.mem_cons] at h
        rcases h with rfl | h
        · exact Or.inl rfl
        · rcases ih true h with h1 | ⟨h1, h2⟩
          · exact Or.inl h1
          · exact Or.inr ⟨List.mem_cons_of_mem d h1, h2⟩
      · simp only [collapseAux, hd, if_true] at h
        rcases ih true h with h1 | ⟨h1, h2⟩
        · exact Or.inl h1
        · exact Or.inr ⟨List.mem_cons_of_mem d h1, h2⟩
    · rw [Bool.not_eq_true] at hd
      simp only [collapseAux, hd, Bool.false_eq_true, if_false,
        List.mem_cons] at h
      rcases h with rfl | h
      · exact Or.inr ⟨List.mem_cons_self _ _, hd⟩
      · rcases ih false h with h1 | ⟨h1, h2⟩
        · exact Or.inl h1
        · exact Or.inr ⟨List.mem_cons_of_mem d h1, h2⟩

/-- The head of `collapseAux true l` is never a space. -/
theorem collapseAux_true_head :
    ∀ l : List Char, (collapseAux true l).head? ≠ some ' ' := by
  intro l
  induction l with
  | nil => simp [collapseAux]
  | cons d rest ih =>
    by_cases hd : pyIsSpace d = true
    · simp only [collapseAux, hd, if_true]
      exact ih
    · rw [Bool.not_eq_true] at hd
      simp only [collapseAux, hd, Bool.false_eq_true, if_false]
      intro h
      simp only [List.head?_cons, Option.some.injEq] at h
      subst h
      rw [show pyIsSpace ' ' = true from rfl] at hd
      cases hd

/-- `collapseAux` output has no two adjacent spaces. -/
theorem collapseAux_noDbl : ∀ (l : List Char) (b : Bool), noDbl (collapseAux b l) := by
  intro l
  induction l with
  | nil => intro b; simp [collapseAux, noDbl]
  | cons d rest ih =>
    intro b
    by_cases hd : pyIsSpace d = true
    · rcases b with _ | _
      · simp only [collapseAux, hd, if_true, Bool.false_eq_true, if_false]
        rw [noDbl, List.chain'_cons']
        refine ⟨?_, ih true⟩
        intro y hy hcon
        rcases hcon with ⟨-, rfl⟩
        exact collapseAux_true_head rest (Option.mem_def.mp hy)
      · simp only [collapseAux, hd, if_true]
        exact ih true
    · rw [Bool.not_eq_true] at hd
      simp only [collapseAux, hd, Bool.false_eq_true, if_false]
      rw [noDbl, List.chain'_cons']
      refine ⟨?_, ih false⟩
      intro y hy
      intro ⟨hd2, _⟩
      subst hd2
      rw [show pyIsSpace ' ' = true from rfl] at hd
      cases hd

/-- `collapseAux` output is whitespace-normalized. -/
theorem collapseAux_wsNormal (l : List Char) (b : Bool) :
    wsNormal (collapseAux b l) := by
  intro c hc hws
  rcases mem_collapseAux l b hc with h | ⟨_, h⟩
  · exact h
  · rw [hws] at h
    cases h

/-- When the head is not whitespace, the run flag does not matter. -/
theorem collapseAux_true_of_head {l : List Char}
    (h : ∀ c ∈ l.head?, pyIsSpace c = false) :
    collapseAux true l = collapseAux false l := by
  cases l with
  | nil => rfl
  | cons d rest =>
    have hd : pyIsSpace d = false := h d (by simp)
    simp only [collapseAux, hd, Bool.false_eq_true, if_false]

/-- Collapsing is the identity on normalized strings. -/
theorem collapseAux_eq_self :
    ∀ l : List Char, wsNormal l → noDbl l → collapseAux false l = l := by
  intro l
  induction l with
  | nil => intro _ _; rfl
  | cons d rest ih =>
    intro hn hdbl
    have hrest : wsNormal rest := fun c hc => hn c (List.mem_cons_of_mem d hc)
    have hdblr : noDbl rest := (List.chain'_cons'.mp hdbl).2
    by_cases hd : pyIsSpace d = true
    · have hd' : d = ' ' := hn d (List.mem_cons_self d rest) hd
      subst hd'
      simp only [collapseAux, if_pos (show pyIsSpace ' ' = true from rfl)]
      have hhead : ∀ c ∈ rest.head?, pyIsSpace c = false := by
        intro c hc
        have hr := (List.chain'_cons'.mp hdbl).1 c hc
        rcases hws : pyIsSpace c
        · rfl
        · exfalso
          apply hr
          refine ⟨rfl, ?_⟩
          exact hrest c (List.mem_of_mem_head? hc) hws
      rw [collapseAux_true_of_head hhead, ih hrest hdblr]
      simp
    · rw [Bool.not_eq_true] at hd
      simp only [collapseAux, hd, Bool.false_eq_true, if_false]
      rw [ih hrest hdblr]

/-- If the artifact matcher accepts nowhere in the string, the artifact
removal pass is the identity (any fuel, any boundary state). -/
theorem subBound_id {m : List Char → Option (List Char)} :
    ∀ (fuel : Nat) (b : Bool) (s : List Char),
      (∀ t, t <:+ s → m t = none) → subBound m fuel b s = s := by
  intro fuel
  induction fuel with
  | zero => intro b s _; rfl
  | succ n ih =>
    intro b s h
    cases s with
    | nil => rfl
    | cons c rest =>
      have hrest : ∀ t, t <:+ rest → m t = none := by
        intro t ht
        exact h t (ht.trans (List.suffix_cons c rest))
      cases b with
      | true =>
        simp only [subBound]
        rw [ih (isWordChar c) rest hrest]
        simp
      | false =>
        simp only [subBound]
        rw [h (c :: rest) (List.suffix_refl _)]
        rw [ih (isWordChar c) rest hrest]
        simp

/-- A successful case-insensitive literal match exhibits the pattern as
a prefix of the lower-cased input. -/
theorem expectStrCI_pre {pat t r : List Char}
    (h : expectStrCI pat t = some r) : pat <+: pyLowerStr t := by
  unfold expectStrCI at h
  split at h
  · rename_i hp
    unfold pyLowerStr
    rw [← hp]
    exact (List.take_prefix pat.length t).map pyLower
  · cases h

/-- If the `Page N` matcher accepts some suffix, the lower-cased string
contains `page`. -/
theorem matchPageArtifact_contains {u t r : List Char}
    (ht : t <:+ u) (h : matchPageArtifact t = some r) :
    strContains (pyLowerStr u) "page".data = true := by
  unfold matchPageArtifact at h
  rw [Option.bind_eq_some] at h
  obtain ⟨r3, h3, -⟩ := h
  rw [Option.bind_eq_some] at h3
  obtain ⟨r2, h2, -⟩ := h3
  rw [Option.bind_eq_some] at h2
  obtain ⟨r1, h1, -⟩ := h2
  have hpre := expectStrCI_pre h1
  rw [strContains_iff]
  exact List.infix_iff_prefix_suffix.mpr ⟨pyLowerStr t, hpre, ht.map pyLower⟩

/-- If the `Code NNNN Title` matcher accepts some suffix, the
lower-cased string contains `code`. -/
theorem matchCodeArtifact_contains {u t r : List Char}
    (ht : t <:+ u) (h : matchCodeArtifact t = some r) :
    strContains (pyLowerStr u) "code".data = true := by
  unfold matchCodeArtifact at h
  rw [Option.bind_eq_some] at h
  obtain ⟨r4, h4, -⟩ := h
  rw [Option.bind_eq_some] at h4
  obtain ⟨r3, h3, -⟩ := h4
  rw [Option.bind_eq_some] at h3
  obtain ⟨r2, h2, -⟩ := h3
  rw [Option.bind_eq_some] at h2
  obtain ⟨r1, h1, -⟩ := h2
  have hpre := expectStrCI_pre h1
  rw [strContains_iff]
  exact List.infix_iff_prefix_suffix.mpr ⟨pyLowerStr t, hpre, ht.map pyLower⟩

/-- The stripped string is a contiguous part of the input. -/
theorem pyStrip_part (l : List Char) : pyStrip l <:+: l := by
  unfold pyStrip
  exact List.infix_iff_prefix_suffix.mpr
    ⟨l.dropWhile pyIsSpace,
     List.rdropWhile_prefix pyIsSpace (l.dropWhile pyIsSpace),
     List.dropWhile_suffix pyIsSpace⟩

/-- `str.strip()` is idempotent. -/
theorem pyStrip_idem (l : List Char) : pyStrip (pyStrip l) = pyStrip l := by
  have hd : (pyStrip l).dropWhile pyIsSpace = pyStrip l := by
    rw [List.dropWhile_eq_self_iff]
    intro hl hp
    have hx : List.dropWhile pyIsSpace (l.dropWhile pyIsSpace) =
        l.dropWhile pyIsSpace := List.dropWhile_idempotent pyIsSpace l
    have hxs := List.dropWhile_eq_self_iff.mp hx
    have hpre : pyStrip l <+: l.dropWhile pyIsSpace := by
      unfold pyStrip
      exact List.rdropWhile_prefix pyIsSpace (l.dropWhile pyIsSpace)
    have hlen : 0 < (l.dropWhile pyIsSpace).length :=
      Nat.lt_of_lt_of_le hl hpre.length_le
    apply hxs hlen
    have hget : (pyStrip l).get ⟨0, hl⟩ =
        (l.dropWhile pyIsSpace).get ⟨0, hlen⟩ := by
      simp only [List.get_eq_getElem]
      exact hpre.getElem hl
    rw [← hget]
    exact hp
  conv_lhs => rw [pyStrip, hd, pyStrip, List.rdropWhile_idempotent]
  rfl

/-- `strContains` is monotone along contiguous containment. -/
theorem strContains_mono {t u pat : List Char} (h : t <:+: u)
    (hc : strContains t pat = true) : strContains u pat = true := by
  rw [strContains_iff] at hc ⊢
  exact hc.trans h

/-- Counterexample to claim C4 as stated: removing the interior artifact
`Page 3` leaves a double space, which a second pass collapses, so
`clean_text` is not idempotent. -/
theorem claim_C4_counterexample :
    clean_text "a Page 3 b".data = "a  b".data ∧
    clean_text (clean_text "a Page 3 b".data) = "a b".data ∧
    clean_text (clean_text "a Page 3 b".data) ≠ clean_text "a Page 3 b".data := by
  refine ⟨?_, ?_, ?_⟩ <;> decide

/-- Claim C4 (amended): `clean_text` is idempotent on inputs that keep
the artifact-removal steps inert — no removable control characters, and
no `page`/`code` (case-insensitively) in the whitespace-collapsed
input.  (In general it is not idempotent: removing an interior
`Page N`/`Code NNNN Title` artifact leaves a double space that only the
next pass collapses.) -/
theorem claim_C4_clean_text_idem (s : List Char)
    (hctrl : ∀ c ∈ s, isRemCtrl c = false)
    (hpage : strContains (pyLowerStr (collapseWs s)) "page".data = false)
    (hcode : strContains (pyLowerStr (collapseWs s)) "code".data = false) :
    clean_text (clean_text s) = clean_text s := by
  have hctrl_u : ∀ c ∈ collapseWs s, isRemCtrl c = false := by
    intro c hc
    rcases mem_collapseAux s false hc with rfl | ⟨hcs, -⟩
    · decide
    · exact hctrl c hcs
  have e1 : filterCtrl (collapseWs s) = collapseWs s :=
    List.filter_eq_self.mpr (fun a ha => by rw [hctrl_u a ha]; rfl)
  have hnopage_u : ∀ t, t <:+ collapseWs s → matchPageArtifact t = none := by
    intro t ht
    rcases hm : matchPageArtifact t with _ | r
    · rfl
    · exfalso
      have := matchPageArtifact_contains ht hm
      rw [hpage] at this
      cases this
  have hnocode_u : ∀ t, t <:+ collapseWs s → matchCodeArtifact t = none := by
    intro t ht
    rcases hm : matchCodeArtifact t with _ | r
    · rfl
    · exfalso
      have := matchCodeArtifact_contains ht hm
      rw [hcode] at this
      cases this
  have hclean : clean_text s = pyStrip (collapseWs s) := by
    simp only [clean_text]
    rw [e1, subBound_id (collapseWs s).length false (collapseWs s) hnopage_u,
      subBound_id (collapseWs s).length false (collapseWs s) hnocode_u]
  have hinf : pyStrip (collapseWs s) <:+: collapseWs s :=
    pyStrip_part (collapseWs s)
  have hwsN_t : wsNormal (pyStrip (collapseWs s)) := by
    intro c hc hws
    exact collapseAux_wsNormal s false c (hinf.subset hc) hws
  have hch_t : noDbl (pyStrip (collapseWs s)) :=
    List.Chain'.infix (collapseAux_noDbl s false) hinf
  have c1 : collapseWs (pyStrip (collapseWs s)) = pyStrip (collapseWs s) :=
    collapseAux_eq_self (pyStrip (collapseWs s)) hwsN_t hch_t
  have c2 : filterCtrl (pyStrip (collapseWs s)) = pyStrip (collapseWs s) :=
    List.filter_eq_self.mpr
      (fun a ha => by rw [hctrl_u a (hinf.subset ha)]; rfl)
  have hlow_inf : pyLowerStr (pyStrip (collapseWs s)) <:+:
      pyLowerStr (collapseWs s) := hinf.map pyLower
  have hnopage_t : ∀ t2, t2 <:+ pyStrip (collapseWs s) →
      matchPageArtifact t2 = none := by
    intro t2 ht2
    rcases hm : matchPageArtifact t2 with _ | r
    · rfl
    · exfalso
      have h1 := matchPageArtifact_contains ht2 hm
      have h2 := strContains_mono hlow_inf h1
      rw [hpage] at h2
      cases h2
  have hnocode_t : ∀ t2, t2 <:+ pyStrip (collapseWs s) →
      matchCodeArtifact t2 = none := by
    intro t2 ht2
    rcases hm : matchCodeArtifact t2 with _ | r
    · rfl
    · exfalso
      have h1 := matchCodeArtifact_contains ht2 hm
      have h2 := strContains_mono hlow_inf h1
      rw [hcode] at h2
      cases h2
  have hsecond : clean_text (pyStrip (collapseWs s)) =
      pyStrip (collapseWs s) := by
    simp only [clean_text]
    rw [c1, c2,
      subBound_id (pyStrip (collapseWs s)).length false _ hnopage_t,
      subBound_id (pyStrip (collapseWs s)).length false _ hnocode_t]
    exact pyStrip_idem (collapseWs s)
  rw [hclean, hsecond]

/-- Witness for the amended C4 at a concrete input. -/
theorem claim_C4_witness :
    clean_text (clean_text "hello   there world".data) =
      clean_text "hello   there world".data :=
  claim_C4_clean_text_idem "hello   there world".data (by decide) (by decide)
    (by decide)
